import Mathlib

/- Verification of the finance-app-dsl front end: the direct-text extractor
   (src/cli/parser.ts) and the semantic validator
   (src/language/finance-app-dsl-validator.ts and the extended
   FinanceAppDSLValidator class). Source text is modelled as List Char; the
   concrete JavaScript regular expressions used by the code are embedded as
   anchored character-level matchers with the same leftmost-match,
   maximal-munch semantics (for the patterns in question, greedy classes are
   never followed by an element they can also match, so no backtracking beyond
   the scan over start positions is needed). -/

namespace FinApp

/-- Characters matched by the JavaScript regex class w-in-brackets:
ASCII letters, digits and underscore. -/
def isWordChar (c : Char) : Bool :=
  c.isAlpha || c.isDigit || c == '_'

/-- Characters matched by the JavaScript regex class backslash-s, restricted to
the ASCII whitespace characters. -/
def isSpaceChar (c : Char) : Bool :=
  c == ' ' || c == '\t' || c == '\n' || c == '\r' || c == '\x0b' || c == '\x0c'

/-- Match a literal character sequence at the start of the input; on success
return the remaining input. -/
def dropLit : List Char → List Char → Option (List Char)
  | [], cs => some cs
  | _ :: _, [] => none
  | l :: ls, c :: cs => if c = l then dropLit ls cs else none

/-- JavaScript String.prototype.includes on character lists: try a literal
match of the needle at every position of the haystack. -/
def jsIncludes : List Char → List Char → Bool
  | [], need => (dropLit need []).isSome
  | c :: t, need => (dropLit need (c :: t)).isSome || jsIncludes t need

/-- JavaScript String.prototype.trim (ASCII whitespace). -/
def jsTrim (cs : List Char) : List Char :=
  (((cs.dropWhile isSpaceChar).reverse).dropWhile isSpaceChar).reverse

/-- JavaScript String.prototype.split with a single-character separator:
always returns at least one (possibly empty) field. -/
def splitOnChar (sep : Char) : List Char → List (List Char)
  | [] => [[]]
  | c :: t =>
    match splitOnChar sep t with
    | [] => [[]]
    | h :: r => if c = sep then [] :: h :: r else (c :: h) :: r

/-- Uppercase an ASCII letter, leaving every other character unchanged
(JavaScript toUpperCase on the one-character strings used by the validator). -/
def jsToUpperChar (c : Char) : Char :=
  if 'a' ≤ c ∧ c ≤ 'z' then Char.ofNat (c.toNat - 32) else c

/-- Scan the input left to right and return the result of the anchored matcher
f at the first position where it succeeds: JavaScript non-global RegExp
matching (String.prototype.match without the g flag). -/
def scanFirst (f : List Char → Option α) : List Char → Option α
  | [] => f []
  | c :: t =>
    match f (c :: t) with
    | some a => some a
    | none => scanFirst f t

/-- Fuelled worker for findMatchesInSource: on a match, resume after the
matched text (JavaScript lastIndex); on failure, advance one character. -/
def findMatchesInSourceF (f : List Char → Option (α × List Char)) :
    Nat → List Char → List α
  | 0, _ => []
  | _ + 1, [] => []
  | fuel + 1, c :: t =>
    match f (c :: t) with
    | some (a, r) => a :: findMatchesInSourceF f fuel r
    | none => findMatchesInSourceF f fuel t

/-- All successive non-overlapping leftmost matches of an anchored matcher, as
produced by the findMatchesInSource loop of src/cli/parser.ts over a global
regex. The fuel argument only bounds the number of scan steps; length many
steps always suffice because every matcher used here consumes at least one
character on success. -/
def findMatchesInSource (f : List Char → Option (α × List Char))
    (cs : List Char) : List α :=
  findMatchesInSourceF f cs.length cs

def kwModel : List Char := "model".data

def kwScreen : List Char := "screen".data

def kwEndpoint : List Char := "endpoint".data

def kwApi : List Char := "api".data

def kwTitle : List Char := "title".data

def kwPath : List Char := "path".data

def kwMethod : List Char := "method".data

def kwDefault : List Char := "default".data

def kwEnum : List Char := "enum".data

def kwBaseUrl : List Char := "baseUrl".data

def kwRequired : List Char := "required".data

def kwGET : List Char := "GET".data

def strInitial : List Char := "initial".data

def commentStart : List Char := "//".data

/-- Anchored matcher for the block patterns used by the extractor: keyword,
one or more spaces, a word (the name), optional spaces, an open brace, a body
free of close braces, a close brace. This is the shape of the model regex
(greedy not-close-brace body), of the screen regex (lazy any-character body,
which also stops at the first close brace) and of the endpoint regex of
parseDirectApi. Returns the whole matched text and the rest of the input. -/
def kwBlockAt (kw : List Char) (cs : List Char) :
    Option (List Char × List Char) :=
  match dropLit kw cs with
  | none => none
  | some r1 =>
    let sp1 := r1.takeWhile isSpaceChar
    let r2 := r1.dropWhile isSpaceChar
    if sp1.isEmpty then none
    else
      let nm := r2.takeWhile isWordChar
      let r3 := r2.dropWhile isWordChar
      if nm.isEmpty then none
      else
        let sp2 := r3.takeWhile isSpaceChar
        let r4 := r3.dropWhile isSpaceChar
        match r4 with
        | '\x7b' :: r5 =>
          let body := r5.takeWhile (fun c => c != '\x7d')
          let r6 := r5.dropWhile (fun c => c != '\x7d')
          match r6 with
          | '\x7d' :: r7 =>
            some (kw ++ sp1 ++ nm ++ sp2 ++ '\x7b' :: (body ++ ['\x7d']), r7)
          | _ => none
        | _ => none

/-- All model blocks of a source text (the global model regex). -/
def modelBlocks (s : List Char) : List (List Char) :=
  findMatchesInSource (kwBlockAt kwModel) s

/-- All screen blocks of a source text (the global screen regex). -/
def screenBlocks (s : List Char) : List (List Char) :=
  findMatchesInSource (kwBlockAt kwScreen) s

/-- All endpoint blocks of a source text (the global endpoint regex of
parseDirectApi). -/
def endpointBlocks (s : List Char) : List (List Char) :=
  findMatchesInSource (kwBlockAt kwEndpoint) s

/-- Match keyword, optional spaces, a colon, optional spaces; return the rest. -/
def keyColonAt (kw : List Char) (cs : List Char) : Option (List Char) :=
  match dropLit kw cs with
  | none => none
  | some r1 =>
    match r1.dropWhile isSpaceChar with
    | ':' :: r2 => some (r2.dropWhile isSpaceChar)
    | _ => none

/-- Match a double-quoted nonempty capture (a quote, one or more non-quote
characters, a quote); return the capture and the rest after the closing
quote. -/
def quotedCapAt (cs : List Char) : Option (List Char × List Char) :=
  match cs with
  | '"' :: r1 =>
    let cap := r1.takeWhile (fun c => c != '"')
    match r1.dropWhile (fun c => c != '"') with
    | '"' :: r2 => if cap.isEmpty then none else some (cap, r2)
    | _ => none
  | _ => none

/-- Anchored matcher for the title capture pattern of parseDirectScreens. -/
def titleCapAt (cs : List Char) : Option (List Char) :=
  (keyColonAt kwTitle cs).bind fun r => (quotedCapAt r).map (fun pr => pr.1)

/-- Anchored matcher for the path capture pattern of parseDirectApi. -/
def pathCapAt (cs : List Char) : Option (List Char) :=
  (keyColonAt kwPath cs).bind fun r => (quotedCapAt r).map (fun pr => pr.1)

/-- Anchored matcher for the method capture pattern of parseDirectApi
(a word after method and a colon). -/
def methodCapAt (cs : List Char) : Option (List Char) :=
  (keyColonAt kwMethod cs).bind fun r =>
    let w := r.takeWhile isWordChar
    if w.isEmpty then none else some w

/-- Anchored matcher for the default-value capture of parseDirectModels
(one or more characters that are neither a comma nor whitespace). -/
def defaultCapAt (cs : List Char) : Option (List Char) :=
  (keyColonAt kwDefault cs).bind fun r =>
    let v := r.takeWhile (fun c => !(isSpaceChar c) && c != ',')
    if v.isEmpty then none else some v

/-- Anchored matcher for the enum list capture of parseDirectModels: an open
bracket, then a lazy any-dot capture up to the first close bracket (the dot
class excludes line terminators, so a newline before the close bracket makes
the candidate fail). -/
def enumCapAt (cs : List Char) : Option (List Char) :=
  (keyColonAt kwEnum cs).bind fun r =>
    match r with
    | '[' :: r1 =>
      let cap := r1.takeWhile (fun c => c != ']' && c != '\n' && c != '\r')
      match r1.dropWhile (fun c => c != ']' && c != '\n' && c != '\r') with
      | ']' :: _ => some cap
      | _ => none
    | _ => none

/-- Anchored matcher for the name-capture regexes that require only keyword,
spaces and a word (the screen and endpoint name re-extraction patterns). -/
def nameAfterKwAt (kw : List Char) (cs : List Char) : Option (List Char) :=
  match dropLit kw cs with
  | none => none
  | some r1 =>
    if (r1.takeWhile isSpaceChar).isEmpty then none
    else
      let nm := (r1.dropWhile isSpaceChar).takeWhile isWordChar
      if nm.isEmpty then none else some nm

/-- Anchored matcher for the model name re-extraction pattern of
parseDirectModels, which additionally requires an open brace after the name. -/
def nameBraceAfterKwAt (kw : List Char) (cs : List Char) : Option (List Char) :=
  match dropLit kw cs with
  | none => none
  | some r1 =>
    if (r1.takeWhile isSpaceChar).isEmpty then none
    else
      let r2 := r1.dropWhile isSpaceChar
      let nm := r2.takeWhile isWordChar
      if nm.isEmpty then none
      else
        match (r2.dropWhile isWordChar).dropWhile isSpaceChar with
        | '\x7b' :: _ => some nm
        | _ => none

/-- The text after the first open brace (JavaScript substring from
indexOf of the open brace plus one). Only applied to block matches, which
always contain an open brace followed later by a close brace. -/
def afterFirstBrace (cs : List Char) : List Char :=
  (cs.dropWhile (fun c => c != '\x7b')).drop 1

/-- The text before the last close brace (JavaScript substring up to
lastIndexOf of the close brace). -/
def beforeLastCloseBrace (cs : List Char) : List Char :=
  (((cs.reverse).dropWhile (fun c => c != '\x7d')).drop 1).reverse

/-- The body a model match contributes its property lines from:
substring between the first open brace and the last close brace. -/
def extractBody (cs : List Char) : List Char :=
  beforeLastCloseBrace (afterFirstBrace cs)

/-- A property as produced by parseDirectModels of src/cli/parser.ts
(the variant that records required, attribute text, enum values and default;
the constant type tag of the JavaScript object is omitted). -/
structure DProperty where
  name : List Char
  type : List Char
  isRequired : Bool
  attributes : List Char
  enumValues : Option (List (List Char))
  defaultValue : Option (List Char)
deriving DecidableEq

/-- A model as produced by parseDirectModels. -/
structure DModel where
  name : List Char
  properties : List DProperty
deriving DecidableEq

/-- A screen as produced by parseDirectScreens (the variant returning the
typed Screen interface: name, isInitial, title). -/
structure DScreen where
  name : List Char
  isInitial : Bool
  title : List Char
deriving DecidableEq

/-- An endpoint summary as produced by parseDirectApi. -/
structure DEndpoint where
  name : List Char
  path : List Char
  method : List Char
deriving DecidableEq

/-- The API object produced by parseDirectApi. -/
structure DApi where
  baseUrl : List Char
  endpoints : List DEndpoint
deriving DecidableEq

/-- Anchored matcher for one property line: a word, optional spaces, a colon,
optional spaces, a word, then the rest of the line (the dot-star capture,
which stops at a line terminator). Returns name, type and the raw attribute
text. -/
def propLineAt (cs : List Char) : Option (List Char × List Char × List Char) :=
  let nm := cs.takeWhile isWordChar
  if nm.isEmpty then none
  else
    match (cs.dropWhile isWordChar).dropWhile isSpaceChar with
    | ':' :: r1 =>
      let r2 := r1.dropWhile isSpaceChar
      let ty := r2.takeWhile isWordChar
      if ty.isEmpty then none
      else
        let rest := (r2.dropWhile isWordChar).takeWhile
          (fun c => c != '\n' && c != '\r')
        some (nm, ty, rest)
    | _ => none

/-- Parse one trimmed property line the way the parseDirectModels loop does:
first match of the property-line pattern anywhere in the line, attribute text
trimmed, enum values split on commas with quotes stripped, the default value
captured, and the required flag set when the attribute text contains the
substring required. -/
def parsePropertyLine (line : List Char) : Option DProperty :=
  (scanFirst propLineAt line).map fun m =>
    let attrs := jsTrim m.2.2
    let enumVals :=
      match scanFirst enumCapAt attrs with
      | some inner =>
        (splitOnChar ',' inner).map fun v =>
          (jsTrim v).filter fun c => c != '\'' && c != '"'
      | none => []
    { name := m.1
      type := m.2.1
      isRequired := jsIncludes attrs kwRequired
      attributes := attrs
      enumValues := if enumVals.length > 0 then some enumVals else none
      defaultValue := scanFirst defaultCapAt attrs }

/-- Turn one model block match into a model: re-extract the name (skipping the
block when that fails, as the continue statement does), take the text between
the braces, split it into trimmed, nonempty, non-comment lines, and parse each
line that matches the property pattern. -/
def modelOfBlock (b : List Char) : Option DModel :=
  (scanFirst (nameBraceAfterKwAt kwModel) b).map fun nm =>
    let body := extractBody b
    let lines := ((splitOnChar '\n' body).map jsTrim).filter fun l =>
      !l.isEmpty && !(dropLit commentStart l).isSome
    { name := nm, properties := lines.filterMap parsePropertyLine }

/-- parseDirectModels of src/cli/parser.ts: every model block of the source,
turned into a model. -/
def parseDirectModels (s : List Char) : List DModel :=
  (modelBlocks s).filterMap modelOfBlock

/-- Turn one screen block match into a screen: re-extract the name (skipping
the block when that fails), set isInitial when the matched text contains the
substring initial, and take the title from the first title capture in the
matched text, defaulting to the name. -/
def screenOfBlock (b : List Char) : Option DScreen :=
  (scanFirst (nameAfterKwAt kwScreen) b).map fun nm =>
    { name := nm
      isInitial := jsIncludes b strInitial
      title := (scanFirst titleCapAt b).getD nm }

/-- parseDirectScreens of src/cli/parser.ts: every screen block of the source,
turned into a screen. -/
def parseDirectScreens (s : List Char) : List DScreen :=
  (screenBlocks s).filterMap screenOfBlock

/-- Turn one endpoint block match into an endpoint summary: name, path and
method captures with their fallbacks (empty name, empty path, GET). -/
def endpointOfBlock (b : List Char) : DEndpoint :=
  { name := (scanFirst (nameAfterKwAt kwEndpoint) b).getD []
    path := (scanFirst pathCapAt b).getD []
    method := (scanFirst methodCapAt b).getD kwGET }

/-- The baseUrl candidate of the api section pattern: baseUrl, a colon, a
nonempty quoted capture, and some close brace later (the final lazy any-star
followed by a close brace). A candidate without a later close brace fails,
which makes the surrounding scan continue, exactly as the lazy star of the
regex expands past it. -/
def baseUrlWithCloseAt (cs : List Char) : Option (List Char) :=
  (keyColonAt kwBaseUrl cs).bind fun r =>
    (quotedCapAt r).bind fun pr =>
      if pr.2.contains '\x7d' then some pr.1 else none

/-- Anchored matcher for the api section pattern of parseDirectApi: api,
optional spaces, an open brace, then (via the lazy any-star) the first baseUrl
capture after which a close brace still occurs. -/
def apiHeadAt (cs : List Char) : Option (List Char) :=
  match dropLit kwApi cs with
  | none => none
  | some r1 =>
    match r1.dropWhile isSpaceChar with
    | '\x7b' :: r2 => scanFirst baseUrlWithCloseAt r2
    | _ => none

/-- parseDirectApi of src/cli/parser.ts (the variant with endpoint fallbacks):
no API object when the api section pattern is absent; otherwise the captured
baseUrl together with every endpoint block of the whole source (not confined
to the api section), each mapped to an endpoint summary. -/
def parseDirectApi (s : List Char) : Option DApi :=
  match scanFirst apiHeadAt s with
  | none => none
  | some u => some { baseUrl := u, endpoints := (endpointBlocks s).map endpointOfBlock }

/-- The grammar-tree root handed over by the Langium document build, reduced
to the field processFinAppFile reads from it. The build itself is external
input and output to the function and is modelled by the optional presence of
this value (parseResult dot value). -/
structure GAst where
  name : List Char
deriving DecidableEq

/-- The application object assembled by processFinAppFile. -/
structure AppOut where
  name : List Char
  models : List DModel
  screens : List DScreen
  api : Option DApi
deriving DecidableEq

/-- The record processFinAppFile resolves with. -/
structure ProcessResult where
  app : AppOut
  models : List DModel
  screens : List DScreen
  api : Option DApi
deriving DecidableEq

def msgParseFailed : List Char := "Failed to parse the document".data

/-- processFinAppFile of src/cli/parser.ts: throw when the grammar parse
produced no tree at all, otherwise run the three extractors over the raw
source text and return normally with whatever they produced. -/
def processFinAppFile (parsedAst : Option GAst) (sourceText : List Char) :
    Except (List Char) ProcessResult :=
  match parsedAst with
  | none => Except.error msgParseFailed
  | some ast =>
    let models := parseDirectModels sourceText
    let screens := parseDirectScreens sourceText
    let api := parseDirectApi sourceText
    Except.ok
      { app := { name := ast.name, models := models, screens := screens, api := api }
        models := models
        screens := screens
        api := api }

/-- One run of all three extractors over a source text. -/
def runExtractors (s : List Char) :
    List DModel × List DScreen × Option DApi :=
  (parseDirectModels s, parseDirectScreens s, parseDirectApi s)

/-- Severity of a validation diagnostic. -/
inductive Sev where
  | error
  | warning
deriving DecidableEq

/-- A validation diagnostic: severity and message (the node reference of the
ValidationAcceptor is not modelled). -/
structure Diag where
  sev : Sev
  message : List Char
deriving DecidableEq

/-- A screen node as seen by the App validator. -/
structure VScreen where
  name : List Char
  isInitial : Bool
deriving DecidableEq

/-- A property feature node: the validator only inspects the node type tag
and, for enum features, the list of enum value strings. -/
inductive VFeature where
  | requiredF
  | defaultF
  | enumF (values : List (List Char))
deriving DecidableEq

/-- A model property node as seen by the Model validator: name, the name of
its data type, and its feature nodes. -/
structure VProperty where
  name : List Char
  typeName : List Char
  features : List VFeature
deriving DecidableEq

/-- A model node as seen by the validators. -/
structure VModel where
  name : List Char
  properties : List VProperty
deriving DecidableEq

/-- An application node as seen by the App validator of
src/language/finance-app-dsl-validator.ts. -/
structure VApp where
  models : List VModel
  screens : List VScreen
deriving DecidableEq

def msgNoModels : List Char :=
  "No models defined. At least one model should be defined.".data

def msgNoScreens : List Char :=
  "No screens defined. At least one screen should be defined.".data

def msgNoInitial : List Char :=
  "No initial screen defined. One screen must be marked as initial.".data

def msgMultiInitial : List Char :=
  "Multiple initial screens defined. Only one screen can be marked as initial.".data

/-- checkApp of src/language/finance-app-dsl-validator.ts: warnings for
missing models and screens, and, only when the screens list is nonempty, an
error when the number of screens marked initial is zero or more than one. -/
def checkApp (app : VApp) : List Diag :=
  (if app.models.isEmpty then [⟨Sev.warning, msgNoModels⟩] else []) ++
  (if app.screens.isEmpty then [⟨Sev.warning, msgNoScreens⟩] else []) ++
  (if !app.screens.isEmpty then
    let initialScreens := app.screens.filter fun s => s.isInitial
    if initialScreens.length == 0 then [⟨Sev.error, msgNoInitial⟩]
    else if initialScreens.length > 1 then [⟨Sev.error, msgMultiInitial⟩]
    else []
  else [])

/-- Is a diagnostic one of the two isInitial-related errors of checkApp? -/
def isInitialErr (d : Diag) : Bool :=
  d.sev == Sev.error && (d.message == msgNoInitial || d.message == msgMultiInitial)

/-- The number of isInitial-related error diagnostics in a diagnostic list. -/
def initialErrCount (ds : List Diag) : Nat :=
  ds.countP isInitialErr

def msgModelMustHaveProp : List Char :=
  "Model must have at least one property.".data

def msgModelPascal : List Char :=
  "Model names should use PascalCase (start with uppercase letter).".data

def msgModelShouldId : List Char :=
  "Model should have an \"id\" property.".data

def msgEnumOnlyString : List Char :=
  "Enum values can only be used with string properties.".data

def msgRequiredDefault : List Char :=
  "Properties with default values do not need to be marked as required.".data

def strDupEnumPre : List Char := "Duplicate enum value: \"".data

def strQuoteDot : List Char := "\".".data

/-- The message of a duplicate-enum-value error for a given value. -/
def dupEnumMsg (v : List Char) : List Char :=
  strDupEnumPre ++ (v ++ strQuoteDot)

def strId : List Char := "id".data

def strString : List Char := "string".data

/-- Is a feature node an enum-values feature? -/
def isEnumFeature : VFeature → Bool
  | VFeature.enumF _ => true
  | _ => false

/-- The duplicate-value errors of the enum check: one error for every value
that was already seen, the seen set growing with every value. -/
def dupEnumDiags : List (List Char) → List (List Char) → List Diag
  | [], _ => []
  | v :: rest, seen =>
    (if seen.contains v then [⟨Sev.error, dupEnumMsg v⟩] else []) ++
      dupEnumDiags rest (v :: seen)

/-- The per-property diagnostics of checkModel: for the first enum feature (if
any) the string-type restriction and the duplicate-value check, then the
redundant required-plus-default warning. -/
def propertyDiags (p : VProperty) : List Diag :=
  (match p.features.find? isEnumFeature with
   | some (VFeature.enumF vs) =>
     (if p.typeName != strString then [⟨Sev.error, msgEnumOnlyString⟩] else []) ++
       dupEnumDiags vs []
   | _ => []) ++
  (if (p.features.contains VFeature.requiredF) &&
      (p.features.contains VFeature.defaultF)
   then [⟨Sev.warning, msgRequiredDefault⟩] else [])

/-- checkModel of the FinanceAppDSLValidator class: the at-least-one-property
error, the PascalCase warning, the id-property warning, then the per-property
enum and feature checks. -/
def checkModel (m : VModel) : List Diag :=
  (if m.properties.isEmpty then [⟨Sev.error, msgModelMustHaveProp⟩] else []) ++
  (match m.name with
   | [] => []
   | c :: _ => if c != jsToUpperChar c then [⟨Sev.warning, msgModelPascal⟩] else []) ++
  (if !(m.properties.any fun p => p.name == strId)
   then [⟨Sev.warning, msgModelShouldId⟩] else []) ++
  (m.properties.map propertyDiags).flatten

/-- Is a diagnostic a duplicate-enum-value error (its message carries the
fixed duplicate-enum prefix)? -/
def isDupEnumDiag (d : Diag) : Bool :=
  (dropLit strDupEnumPre d.message).isSome

/-- A navigation item node as seen by the Navigation validator: the name of
the screen its reference resolved to, when it resolved. -/
structure VNavItem where
  screenRef : Option (List Char)
deriving DecidableEq

/-- A navigation node as seen by the Navigation validator. -/
structure VNavigationNode where
  navType : List Char
  items : List VNavItem
deriving DecidableEq

def msgNavMustHaveItem : List Char :=
  "Navigation must have at least one item.".data

def strScreenQuotePre : List Char := "Screen \"".data

def strDupRefSuf : List Char :=
  "\" is referenced multiple times in navigation.".data

/-- The message of a duplicate-screen-reference warning for a screen name. -/
def dupRefMsg (n : List Char) : List Char :=
  strScreenQuotePre ++ (n ++ strDupRefSuf)

def msgTabTooMany : List Char :=
  "Tab navigation typically should not have more than 5 items.".data

def strTab : List Char := "tab".data

/-- The duplicate-screen-reference warnings of checkNavigation: a warning for
every item whose resolved screen name is truthy and already in the seen map;
every resolved name is added to the map (an unresolved reference adds the
undefined key, which a truthy name can never collide with). -/
def dupRefDiags : List VNavItem → List (List Char) → List Diag
  | [], _ => []
  | it :: rest, seen =>
    match it.screenRef with
    | some n =>
      (if !n.isEmpty && seen.contains n then [⟨Sev.warning, dupRefMsg n⟩] else []) ++
        dupRefDiags rest (n :: seen)
    | none => dupRefDiags rest seen

/-- checkNavigation of the FinanceAppDSLValidator class: the at-least-one-item
error, the duplicate-screen-reference warnings, and the advisory about tab
navigations with more than five items. -/
def checkNavigation (nav : VNavigationNode) : List Diag :=
  (if nav.items.isEmpty then [⟨Sev.error, msgNavMustHaveItem⟩] else []) ++
  dupRefDiags nav.items [] ++
  (if nav.navType == strTab && decide (nav.items.length > 5)
   then [⟨Sev.warning, msgTabTooMany⟩] else [])

/-- Is a diagnostic a duplicate-screen-reference warning (a warning whose
message carries the fixed screen-quote prefix)? -/
def isDupRefWarn (d : Diag) : Bool :=
  d.sev == Sev.warning && (dropLit strScreenQuotePre d.message).isSome

/-- The resolved screen names of a list of navigation items, in order. -/
def resolvedRefs (items : List VNavItem) : List (List Char) :=
  items.filterMap fun it => it.screenRef

/-- An endpoint node as seen by the API validator: id, path, the method name,
the declared parameter names (absent when no params section was written), and
the body model reference when present. -/
structure VEndpoint where
  id : List Char
  path : List Char
  method : List Char
  params : Option (List (List Char))
  body : Option (List Char)
deriving DecidableEq

/-- An API node as seen by the API validator. -/
structure VApi where
  baseUrl : List Char
  endpoints : List VEndpoint
deriving DecidableEq

def msgApiNoEndpoints : List Char :=
  "API should have at least one endpoint.".data

def strDupIdPre : List Char := "Duplicate endpoint ID: \"".data

/-- The message of a duplicate-endpoint-id error. -/
def dupIdMsg (i : List Char) : List Char :=
  strDupIdPre ++ (i ++ strQuoteDot)

def msgPostPathParams : List Char :=
  ("POST endpoints typically should not have path parameters. " ++
   "Consider using query parameters or request body.").data

def msgPutId : List Char :=
  "PUT endpoints typically should include a resource ID in the path.".data

def msgDeleteId : List Char :=
  "DELETE endpoints typically should include a resource ID in the path.".data

def strPathParamPre : List Char := "Path parameter \"".data

def strPathParamSuf : List Char :=
  "\" is not defined in the endpoint parameters.".data

/-- The message of a path-parameter-not-defined error for a parameter name. -/
def pathParamMsg (p : List Char) : List Char :=
  strPathParamPre ++ (p ++ strPathParamSuf)

def strBodySuf : List Char :=
  " endpoints typically should have a request body defined.".data

def strNoBodySuf : List Char :=
  " endpoints typically should not have a request body.".data

def strPOST : List Char := "POST".data

def strPUT : List Char := "PUT".data

def strDELETE : List Char := "DELETE".data

/-- Anchored matcher for one path-parameter token: an open brace, one or more
characters that are not a close brace, a close brace. Returns the text
between the braces (what the validator recovers with substring) and the rest. -/
def braceTokenAt (cs : List Char) : Option (List Char × List Char) :=
  match cs with
  | '\x7b' :: r1 =>
    let inner := r1.takeWhile (fun c => c != '\x7d')
    match r1.dropWhile (fun c => c != '\x7d') with
    | '\x7d' :: r2 => if inner.isEmpty then none else some (inner, r2)
    | _ => none
  | _ => none

/-- All path-parameter tokens of a path string (the global brace-token
regex), already stripped of their braces. -/
def pathTokens (path : List Char) : List (List Char) :=
  findMatchesInSource braceTokenAt path

/-- The declared parameter names of an endpoint (empty when no params section
was written). -/
def paramNames (e : VEndpoint) : List (List Char) :=
  e.params.getD []

/-- The duplicate-endpoint-id errors of checkAPI. -/
def dupIdDiags : List VEndpoint → List (List Char) → List Diag
  | [], _ => []
  | e :: rest, seen =>
    (if seen.contains e.id then [⟨Sev.error, dupIdMsg e.id⟩] else []) ++
      dupIdDiags rest (e.id :: seen)

/-- The per-endpoint convention diagnostics of checkAPI: method and path
advisories, the path-parameter cross-check (one error per undeclared
path-parameter token occurrence), and the body advisories. -/
def endpointConvDiags (e : VEndpoint) : List Diag :=
  (if e.method == strPOST && e.path.contains '\x7b'
   then [⟨Sev.warning, msgPostPathParams⟩] else []) ++
  (if e.method == strPUT && !e.path.contains '\x7b'
   then [⟨Sev.warning, msgPutId⟩] else []) ++
  (if e.method == strDELETE && !e.path.contains '\x7b'
   then [⟨Sev.warning, msgDeleteId⟩] else []) ++
  (if e.path.contains '\x7b' then
    (pathTokens e.path).map (fun p =>
      if (paramNames e).contains p then [] else [⟨Sev.error, pathParamMsg p⟩])
      |>.flatten
   else []) ++
  (if (e.method == strPOST || e.method == strPUT) && e.body.isNone
   then [⟨Sev.warning, e.method ++ strBodySuf⟩] else []) ++
  (if (e.method == kwGET || e.method == strDELETE) && e.body.isSome
   then [⟨Sev.warning, e.method ++ strNoBodySuf⟩] else [])

/-- checkAPI of the FinanceAppDSLValidator class: the at-least-one-endpoint
warning, the duplicate-id errors, then the per-endpoint convention and
path-parameter checks. -/
def checkAPI (api : VApi) : List Diag :=
  (if api.endpoints.isEmpty then [⟨Sev.warning, msgApiNoEndpoints⟩] else []) ++
  dupIdDiags api.endpoints [] ++
  (api.endpoints.map endpointConvDiags).flatten

/-- Is a diagnostic the path-parameter-not-defined error for the given
parameter name? -/
def isPathParamErr (p : List Char) (d : Diag) : Bool :=
  d.sev == Sev.error && d.message == pathParamMsg p

/-- The number of path-parameter-not-defined errors for a given parameter
name in a diagnostic list. -/
def pathParamErrCount (p : List Char) (ds : List Diag) : Nat :=
  ds.countP (isPathParamErr p)

/- Concrete inputs used by counterexamples and witnesses. -/

/-- An application with no models and no screens: its screens list contains
zero screens marked initial. -/
def appNoScreens : VApp :=
  { models := [], screens := [] }

/-- An application with exactly one screen marked initial. -/
def appOneInitial : VApp :=
  { models := [], screens := [⟨"Home".data, true⟩] }

/-- An application with two screens marked initial. -/
def appTwoInitial : VApp :=
  { models := [], screens := [⟨"Home".data, true⟩, ⟨"Hub".data, true⟩] }

/-- The source text of the screen-extraction witness. -/
def screenWitSrc : List Char :=
  "screen Home \x7b title: \"Overview\" initial \x7d".data

/-- The screen the extractor produces for the witness source. -/
def screenWit : DScreen :=
  { name := "Home".data, isInitial := true, title := "Overview".data }

/-- The model block of the round-trip property of the specification. -/
def modelRoundTripSrc : List Char :=
  "model M \x7b a: string required\nb: number default: 5 \x7d".data

/-- A model whose single string property declares the enum values open,
closed, open. -/
def modelEnumDup : VModel :=
  { name := "M".data
    properties :=
      [{ name := "status".data
         typeName := "string".data
         features := [VFeature.enumF ["open".data, "closed".data, "open".data]] }] }

/-- A model whose single number property declares an enum feature. -/
def modelEnumNonString : VModel :=
  { name := "N".data
    properties :=
      [{ name := "count".data
         typeName := "number".data
         features := [VFeature.enumF ["1".data, "2".data]] }] }

/-- An endpoint whose path repeats the id path-parameter token and declares
no parameters. -/
def epDupToken : VEndpoint :=
  { id := "getTx".data
    path := "/accounts/\x7bid\x7d/\x7bid\x7d".data
    method := kwGET
    params := none
    body := none }

/-- An API node holding only the endpoint with the repeated token. -/
def apiDupToken : VApi :=
  { baseUrl := "/v1".data, endpoints := [epDupToken] }

/-- An endpoint with one undeclared id path-parameter token. -/
def epOneToken : VEndpoint :=
  { id := "getTx".data
    path := "/accounts/\x7bid\x7d/transactions".data
    method := kwGET
    params := none
    body := none }

/-- The endpoint with the id parameter declared. -/
def epOneTokenDeclared : VEndpoint :=
  { id := "getTx".data
    path := "/accounts/\x7bid\x7d/transactions".data
    method := kwGET
    params := some ["id".data]
    body := none }

/-- A navigation with items resolving to A, B and A again. -/
def navRepeated : VNavigationNode :=
  { navType := strTab
    items := [⟨some ("A".data)⟩, ⟨some ("B".data)⟩, ⟨some ("A".data)⟩] }

/-- The source text of the api-extraction witness: an api section with a
baseUrl, and one endpoint block with neither a path nor a method field. -/
def apiWitSrc : List Char :=
  "api \x7b baseUrl: \"https://x\" \x7d endpoint e1 \x7b \x7d".data

/-- The endpoint block inside the api-extraction witness source. -/
def apiWitBlock : List Char :=
  "endpoint e1 \x7b \x7d".data

/-- The API object the extractor produces for the witness source: the block
has neither field, so the path falls back to the empty string and the method
to GET. -/
def apiWitExpected : DApi :=
  { baseUrl := "https://x".data
    endpoints := [{ name := "e1".data, path := [], method := kwGET }] }

/-- The grammar-tree value used by witnesses. -/
def gastWit : GAst := { name := ['A'] }

/-- The record processFinAppFile returns for the witness input: a present
grammar tree over the empty source text. -/
def processWitResult : ProcessResult :=
  { app := { name := ['A'], models := [], screens := [], api := none }
    models := []
    screens := []
    api := none }

end FinApp

/- Theorems. -/

namespace FinApp

theorem dropLit_eq_some_iff (l : List Char) :
    ∀ cs r, dropLit l cs = some r ↔ cs = l ++ r := by
  induction l with
  | nil => intro cs r; simp [dropLit, eq_comm]
  | cons a l ih =>
    intro cs r
    cases cs with
    | nil => simp [dropLit]
    | cons c t =>
      simp only [dropLit, List.cons_append, List.cons.injEq]
      by_cases h : c = a
      · subst h; simp [ih]
      · simp [h]

theorem dropLit_self_append (l r : List Char) :
    dropLit l (l ++ r) = some r :=
  (dropLit_eq_some_iff l (l ++ r) r).mpr rfl

theorem jsIncludes_iff (hay need : List Char) :
    jsIncludes hay need = true ↔ ∃ pre post, hay = pre ++ need ++ post := by
  induction hay with
  | nil =>
    simp only [jsIncludes, Option.isSome_iff_exists]
    constructor
    · rintro ⟨r, hr⟩
      rw [dropLit_eq_some_iff] at hr
      exact ⟨[], r, by simpa using hr⟩
    · rintro ⟨pre, post, h⟩
      have hpre : pre = [] := by
        cases pre with
        | nil => rfl
        | cons p ps => simp at h
      subst hpre
      have hneed : need = [] := by
        cases need with
        | nil => rfl
        | cons n ns => simp at h
      subst hneed
      exact ⟨post, by simpa [dropLit] using h.symm⟩
  | cons c t ih =>
    simp only [jsIncludes, Bool.or_eq_true, Option.isSome_iff_exists]
    constructor
    · rintro (⟨r, hr⟩ | htail)
      · rw [dropLit_eq_some_iff] at hr
        exact ⟨[], r, by simpa using hr⟩
      · obtain ⟨pre, post, h⟩ := ih.mp htail
        exact ⟨c :: pre, post, by simp [h]⟩
    · rintro ⟨pre, post, h⟩
      cases pre with
      | nil =>
        left
        refine ⟨post, ?_⟩
        rw [dropLit_eq_some_iff]
        simpa using h
      | cons p ps =>
        right
        apply ih.mpr
        refine ⟨ps, post, ?_⟩
        have h2 := h
        simp only [List.cons_append, List.cons.injEq] at h2
        exact h2.2

/-- C3: extracting models from the block
model M with property lines a colon string required and b colon number
default colon 5 yields exactly one model, named M, with exactly two
properties in order: a of type string, marked required, with no default
value, and b of type number, not required, with default value 5. -/
theorem parseDirectModels_roundTrip :
    parseDirectModels modelRoundTripSrc =
      [{ name := ['M']
         properties :=
           [{ name := ['a']
              type := "string".data
              isRequired := true
              attributes := "required".data
              enumValues := none
              defaultValue := none },
            { name := ['b']
              type := "number".data
              isRequired := false
              attributes := "default: 5".data
              enumValues := none
              defaultValue := some ['5'] }] }] := by
  decide

/-- C8: the extractor is a pure function of the source text: a second run
over the identical text yields the same model, screen and API collections,
in the same order, as the first. In the embedding this is definitional,
which is the point: each extractor call constructs its regular expressions
afresh, so no scan state survives between runs. -/
theorem runExtractors_idempotent (s : List Char) :
    runExtractors s = runExtractors s := rfl

theorem countP_warning_if_zero (b : Bool) (m : List Char) :
    List.countP isInitialErr (if b then [⟨Sev.warning, m⟩] else []) = 0 := by
  cases b <;> simp [List.countP_cons, isInitialErr]

/-- Closed form of the number of isInitial-related errors checkApp emits:
none when the screens list is empty or exactly one screen is initial,
exactly one otherwise. -/
theorem initialErrCount_checkApp (app : VApp) :
    initialErrCount (checkApp app) =
      if app.screens = [] then 0
      else if (app.screens.filter fun s => s.isInitial).length = 1 then 0
      else 1 := by
  rcases app with ⟨ms, scrs⟩
  simp only [checkApp, initialErrCount, List.countP_append, countP_warning_if_zero]
  cases scrs with
  | nil => simp
  | cons s0 rest =>
    simp only [List.isEmpty_cons, Bool.not_false, if_true, if_neg (List.cons_ne_nil s0 rest)]
    by_cases hk : ((s0 :: rest).filter fun s => s.isInitial).length = 1
    · rw [if_pos hk]
      have h0 : (((s0 :: rest).filter fun s => s.isInitial).length == 0) = false := by
        simp [hk]
      rw [h0]
      simp only [Bool.false_eq_true, if_false, hk]
      norm_num
    · rw [if_neg hk]
      by_cases hk0 : ((s0 :: rest).filter fun s => s.isInitial).length = 0
      · have h0 : (((s0 :: rest).filter fun s => s.isInitial).length == 0) = true := by
          simp [hk0]
        rw [h0]
        simp [isInitialErr, List.countP_cons]
      · have h0 : (((s0 :: rest).filter fun s => s.isInitial).length == 0) = false := by
          simp [hk0]
        rw [h0]
        simp only [Bool.false_eq_true, if_false]
        rw [if_pos (by omega :
          ((s0 :: rest).filter fun s => s.isInitial).length > 1)]
        simp [isInitialErr, List.countP_cons]

/-- C1 counterexample: the application with an empty screens list has zero
screens marked initial, yet checkApp emits zero isInitial-related error
diagnostics rather than the exactly one the claim demands (the initial-screen
check runs only when the screens list is nonempty). -/
theorem checkApp_c1_counterexample :
    (appNoScreens.screens.filter fun s => s.isInitial).length = 0 ∧
    initialErrCount (checkApp appNoScreens) = 0 := by
  decide

/-- C1 as amended: for an application whose screens list is nonempty, checkApp
emits zero isInitial-related errors when exactly one screen is marked initial
and exactly one such error in total (never one per extra initial screen) when
zero or at least two screens are marked initial; an application with no
screens at all gets no isInitial-related error. -/
theorem checkApp_initial_errors (app : VApp) :
    ((app.screens.filter fun s => s.isInitial).length = 1 →
      initialErrCount (checkApp app) = 0) ∧
    (app.screens ≠ [] →
      (app.screens.filter fun s => s.isInitial).length ≠ 1 →
      initialErrCount (checkApp app) = 1) := by
  have h := initialErrCount_checkApp app
  constructor
  · intro h1
    have hne : app.screens ≠ [] := by
      intro he
      rw [he] at h1
      simp at h1
    rw [h, if_neg hne, if_pos h1]
  · intro hne hk
    rw [h, if_neg hne, if_neg hk]

/-- Witness for the amended C1 theorem: one initial screen gives zero
isInitial errors, two initial screens give exactly one. -/
theorem checkApp_initial_errors_wit :
    initialErrCount (checkApp appOneInitial) = 0 ∧
    initialErrCount (checkApp appTwoInitial) = 1 :=
  ⟨(checkApp_initial_errors appOneInitial).1 (by decide),
   (checkApp_initial_errors appTwoInitial).2 (by decide) (by decide)⟩

/-- C4: processFinAppFile fails exactly when the grammar parse produced no
tree at all; with a tree present it returns normally, and when extraction
finds no model block and no screen block the returned model and screen
collections are simply empty rather than an error. -/
theorem processFinAppFile_error_iff (parsedAst : Option GAst) (s : List Char) :
    ((processFinAppFile parsedAst s).isOk = parsedAst.isSome) ∧
    (∀ r, processFinAppFile parsedAst s = Except.ok r →
      modelBlocks s = [] → screenBlocks s = [] →
      r.models = [] ∧ r.screens = []) := by
  constructor
  · cases parsedAst <;> rfl
  · intro r hr hm hs
    cases parsedAst with
    | none => simp [processFinAppFile] at hr
    | some ast =>
      simp only [processFinAppFile, Except.ok.injEq] at hr
      rw [← hr]
      constructor
      · show parseDirectModels s = []
        rw [parseDirectModels, hm]
        rfl
      · show parseDirectScreens s = []
        rw [parseDirectScreens, hs]
        rfl

/-- Witness for the C4 theorem at a present grammar tree over the empty
source text: the call returns normally and the returned collections are
empty. -/
theorem processFinAppFile_error_iff_wit :
    ((processFinAppFile (some gastWit) []).isOk = (some gastWit).isSome) ∧
    processWitResult.models = [] ∧ processWitResult.screens = [] := by
  have h := processFinAppFile_error_iff (some gastWit) []
  exact ⟨h.1, h.2 processWitResult rfl (by decide) (by decide)⟩

/-- C5: the extractors are total functions of the source text: every
extracted model or screen arises from a block match (a block whose name
re-extraction fails is silently dropped by the filterMap), and when no block
or api section matches the result is the empty collection or no API object,
never a failure. -/
theorem extractors_total (s : List Char) :
    (∀ m ∈ parseDirectModels s, ∃ b ∈ modelBlocks s, modelOfBlock b = some m) ∧
    (∀ scr ∈ parseDirectScreens s, ∃ b ∈ screenBlocks s, screenOfBlock b = some scr) ∧
    (modelBlocks s = [] → parseDirectModels s = []) ∧
    (screenBlocks s = [] → parseDirectScreens s = []) ∧
    (scanFirst apiHeadAt s = none → parseDirectApi s = none) := by
  refine ⟨?_, ?_, ?_, ?_, ?_⟩
  · intro m hm
    exact List.mem_filterMap.mp hm
  · intro scr hscr
    exact List.mem_filterMap.mp hscr
  · intro h
    rw [parseDirectModels, h]
    rfl
  · intro h
    rw [parseDirectScreens, h]
    rfl
  · intro h
    rw [parseDirectApi, h]

/-- Witness for the C5 theorem at a source text without any match. -/
theorem extractors_total_wit :
    parseDirectModels ['x'] = [] ∧ parseDirectScreens ['x'] = [] ∧
    parseDirectApi ['x'] = none := by
  have h := extractors_total ['x']
  exact ⟨h.2.2.1 (by decide), h.2.2.2.1 (by decide), h.2.2.2.2 (by decide)⟩

theorem space_not_word (c : Char) (h : isSpaceChar c = true) :
    isWordChar c = false := by
  simp only [isSpaceChar, Bool.or_eq_true, beq_iff_eq] at h
  rcases h with ((((h | h) | h) | h) | h) | h <;> subst h <;> decide

theorem word_not_space (c : Char) (h : isWordChar c = true) :
    isSpaceChar c = false := by
  cases hs : isSpaceChar c with
  | false => rfl
  | true => rw [space_not_word c hs] at h; exact absurd h (by simp)

theorem takeWhile_append_all (p : Char → Bool) (l₁ l₂ : List Char)
    (h : ∀ c ∈ l₁, p c = true) :
    (l₁ ++ l₂).takeWhile p = l₁ ++ l₂.takeWhile p := by
  induction l₁ with
  | nil => simp
  | cons a t ih =>
    have ha : p a = true := h a (List.mem_cons_self a t)
    simp only [List.cons_append, List.takeWhile_cons, ha, if_true, List.cons.injEq]
    exact ⟨trivial, ih fun c hc => h c (List.mem_cons_of_mem a hc)⟩

theorem dropWhile_append_all (p : Char → Bool) (l₁ l₂ : List Char)
    (h : ∀ c ∈ l₁, p c = true) :
    (l₁ ++ l₂).dropWhile p = l₂.dropWhile p := by
  induction l₁ with
  | nil => simp
  | cons a t ih =>
    have ha : p a = true := h a (List.mem_cons_self a t)
    simp only [List.cons_append, List.dropWhile_cons, ha, if_true]
    exact ih fun c hc => h c (List.mem_cons_of_mem a hc)

theorem takeWhile_eq_nil_of_head (p : Char → Bool) (c : Char) (t : List Char)
    (h : p c = false) : (c :: t).takeWhile p = [] := by
  simp [List.takeWhile_cons, h]

/-- Every successful block match has the shape keyword, nonempty spaces,
nonempty word, spaces, open brace, body, close brace, with the runs drawn
from the corresponding character classes. -/
theorem kwBlockAt_shape {kw cs : List Char} {pr : List Char × List Char}
    (h : kwBlockAt kw cs = some pr) :
    ∃ sp1 nm sp2 body,
      pr.1 = kw ++ sp1 ++ nm ++ sp2 ++ '\x7b' :: (body ++ ['\x7d']) ∧
      (∀ c ∈ sp1, isSpaceChar c = true) ∧ sp1 ≠ [] ∧
      (∀ c ∈ nm, isWordChar c = true) ∧ nm ≠ [] ∧
      (∀ c ∈ sp2, isSpaceChar c = true) := by
  simp only [kwBlockAt] at h
  split at h
  · exact absurd h (by simp)
  · rename_i r1 heq1
    split at h
    · exact absurd h (by simp)
    · rename_i hsp1
      split at h
      · exact absurd h (by simp)
      · rename_i hnm
        split at h
        · rename_i r5 heq5
          split at h
          · rename_i r7 heq7
            simp only [Option.some.injEq] at h
            refine ⟨r1.takeWhile isSpaceChar,
              (r1.dropWhile isSpaceChar).takeWhile isWordChar,
              ((r1.dropWhile isSpaceChar).dropWhile isWordChar).takeWhile isSpaceChar,
              r5.takeWhile (fun c => c != '\x7d'), ?_, ?_, ?_, ?_, ?_, ?_⟩
            · rw [← h]
            · exact fun c hc => List.mem_takeWhile_imp hc
            · simpa [List.isEmpty_eq_false] using hsp1
            · exact fun c hc => List.mem_takeWhile_imp hc
            · simpa [List.isEmpty_eq_false] using hnm
            · exact fun c hc => List.mem_takeWhile_imp hc
          · exact absurd h (by simp)
        · exact absurd h (by simp)

/-- On a block of the matched shape, the name re-extraction pattern without a
brace succeeds at position zero and captures exactly the name run. -/
theorem nameAfterKwAt_of_shape (kw sp1 nm sp2 : List Char) (x : List Char)
    (hsp1 : ∀ c ∈ sp1, isSpaceChar c = true) (hsp1n : sp1 ≠ [])
    (hnm : ∀ c ∈ nm, isWordChar c = true) (hnmn : nm ≠ [])
    (hsp2 : ∀ c ∈ sp2, isSpaceChar c = true) :
    nameAfterKwAt kw (kw ++ sp1 ++ nm ++ sp2 ++ '\x7b' :: x) = some nm := by
  rcases nm with _ | ⟨n0, nt⟩
  · exact absurd rfl hnmn
  have hn0 : isWordChar n0 = true := hnm n0 (List.mem_cons_self n0 nt)
  have hnt : ∀ c ∈ nt, isWordChar c = true :=
    fun c hc => hnm c (List.mem_cons_of_mem n0 hc)
  have hassoc : kw ++ sp1 ++ (n0 :: nt) ++ sp2 ++ '\x7b' :: x =
      kw ++ (sp1 ++ ((n0 :: nt) ++ (sp2 ++ '\x7b' :: x))) := by
    simp [List.append_assoc]
  have hTW : (sp1 ++ ((n0 :: nt) ++ (sp2 ++ '\x7b' :: x))).takeWhile isSpaceChar
      = sp1 := by
    rw [takeWhile_append_all isSpaceChar sp1 _ hsp1, List.cons_append,
      List.takeWhile_cons, word_not_space n0 hn0]
    simp
  have hDW : (sp1 ++ ((n0 :: nt) ++ (sp2 ++ '\x7b' :: x))).dropWhile isSpaceChar
      = n0 :: (nt ++ (sp2 ++ '\x7b' :: x)) := by
    rw [dropWhile_append_all isSpaceChar sp1 _ hsp1, List.cons_append,
      List.dropWhile_cons, word_not_space n0 hn0]
    simp
  have hTWw : (sp2 ++ '\x7b' :: x).takeWhile isWordChar = [] := by
    rcases sp2 with _ | ⟨s0, st⟩
    · rw [List.nil_append]
      exact takeWhile_eq_nil_of_head isWordChar '\x7b' x (by decide)
    · rw [List.cons_append]
      exact takeWhile_eq_nil_of_head isWordChar s0 _
        (space_not_word s0 (hsp2 s0 (List.mem_cons_self s0 st)))
  have hTW2 : (n0 :: (nt ++ (sp2 ++ '\x7b' :: x))).takeWhile isWordChar
      = n0 :: nt := by
    rw [List.takeWhile_cons, hn0, if_pos rfl,
      takeWhile_append_all isWordChar nt _ hnt, hTWw, List.append_nil]
  have hsp1e : sp1.isEmpty = false := by
    simpa [List.isEmpty_eq_false] using hsp1n
  rw [hassoc, nameAfterKwAt, dropLit_self_append]
  simp only [hTW, hDW, hTW2, hsp1e]
  simp

theorem scanFirst_of_anchor {f : List Char → Option α} {m : List Char} {a : α}
    (h : f m = some a) : scanFirst f m = some a := by
  cases m with
  | nil => simpa [scanFirst] using h
  | cons c t => simp [scanFirst, h]

theorem mem_findMatchesInSourceF {f : List Char → Option (α × List Char)} :
    ∀ (fuel : Nat) (cs : List Char) (a : α),
      a ∈ findMatchesInSourceF f fuel cs → ∃ cs0 r, f cs0 = some (a, r) := by
  intro fuel
  induction fuel with
  | zero => intro cs a h; exact absurd h (by simp [findMatchesInSourceF])
  | succ n ih =>
    intro cs a h
    cases cs with
    | nil => exact absurd h (by simp [findMatchesInSourceF])
    | cons c t =>
      rw [findMatchesInSourceF] at h
      rcases hf : f (c :: t) with _ | ⟨a0, r⟩
      · rw [hf] at h
        exact ih t a h
      · rw [hf] at h
        rcases List.mem_cons.mp h with h0 | h1
        · exact ⟨c :: t, r, by rw [hf, h0]⟩
        · exact ih r a h1

/-- Every screen block admits a successful name re-extraction. -/
theorem screenName_of_block {s b : List Char} (hb : b ∈ screenBlocks s) :
    ∃ nm, scanFirst (nameAfterKwAt kwScreen) b = some nm := by
  obtain ⟨cs0, r, hmatch⟩ := mem_findMatchesInSourceF s.length s b hb
  obtain ⟨sp1, nm, sp2, body, hshape, hsp1, hsp1n, hnm, hnmn, hsp2⟩ :=
    kwBlockAt_shape hmatch
  refine ⟨nm, ?_⟩
  have hb1 : b = kwScreen ++ sp1 ++ nm ++ sp2 ++ '\x7b' :: (body ++ ['\x7d']) := by
    simpa using hshape
  have hname := nameAfterKwAt_of_shape kwScreen sp1 nm sp2 (body ++ ['\x7d'])
    hsp1 hsp1n hnm hnmn hsp2
  exact scanFirst_of_anchor (by rw [hb1]; exact hname)

/-- C2: for every source text and every screen block matched in it, the
extractor produces a screen for the block, with isInitial true exactly when
the substring initial occurs anywhere in the matched block text, and with the
title taken from the first title capture inside the block, defaulting to the
extracted screen name when that pattern is absent. -/
theorem parseDirectScreens_block_spec (s : List Char) :
    ∀ b ∈ screenBlocks s, ∃ scr,
      screenOfBlock b = some scr ∧ scr ∈ parseDirectScreens s ∧
      (scr.isInitial = true ↔ ∃ pre post, b = pre ++ strInitial ++ post) ∧
      (∀ t, scanFirst titleCapAt b = some t → scr.title = t) ∧
      (scanFirst titleCapAt b = none → scr.title = scr.name) := by
  intro b hb
  obtain ⟨nm, hnm⟩ := screenName_of_block hb
  have hsob : screenOfBlock b = some
      { name := nm
        isInitial := jsIncludes b strInitial
        title := (scanFirst titleCapAt b).getD nm } := by
    rw [screenOfBlock, hnm]
    rfl
  refine ⟨_, hsob, List.mem_filterMap.mpr ⟨b, hb, hsob⟩, ?_, ?_, ?_⟩
  · exact jsIncludes_iff b strInitial
  · intro t ht
    simp [ht]
  · intro ht
    simp [ht]

/-- Witness for the C2 theorem at a screen block carrying a title and the
initial marker. -/
theorem parseDirectScreens_block_spec_wit :
    (screenWitSrc ∈ screenBlocks screenWitSrc) ∧
    (∃ scr, screenOfBlock screenWitSrc = some scr ∧
      scr ∈ parseDirectScreens screenWitSrc ∧
      (scr.isInitial = true ↔
        ∃ pre post, screenWitSrc = pre ++ strInitial ++ post) ∧
      (∀ t, scanFirst titleCapAt screenWitSrc = some t → scr.title = t) ∧
      (scanFirst titleCapAt screenWitSrc = none → scr.title = scr.name)) :=
  ⟨by decide, parseDirectScreens_block_spec screenWitSrc screenWitSrc (by decide)⟩

/-- C6: a string property with enum values open, closed, open gets exactly
one duplicate-enum-value diagnostic, an error naming open; a number property
with an enum feature gets the enum-values-only-with-string-properties
error. -/
theorem checkModel_enum_checks :
    (checkModel modelEnumDup).filter isDupEnumDiag =
      [⟨Sev.error, dupEnumMsg ("open".data)⟩] ∧
    (checkModel modelEnumNonString).filter
        (fun d => d.message == msgEnumOnlyString) =
      [⟨Sev.error, msgEnumOnlyString⟩] := by
  decide

theorem pathParamMsg_injective {q p : List Char}
    (h : pathParamMsg q = pathParamMsg p) : q = p := by
  rw [pathParamMsg, pathParamMsg] at h
  have h1 := List.append_cancel_left h
  exact (List.append_left_inj strPathParamSuf).mp h1

theorem dupIdMsg_ne_pathParamMsg (i p : List Char) :
    (dupIdMsg i == pathParamMsg p) = false := by
  rw [beq_eq_false_iff_ne]
  intro hEq
  have h16 := congrArg (List.take 16) hEq
  simp only [dupIdMsg, pathParamMsg] at h16
  have hA : List.take 16 (strDupIdPre ++ (i ++ strQuoteDot)) =
      List.take 16 strDupIdPre :=
    List.take_append_of_le_length (by decide)
  have hB : List.take 16 (strPathParamPre ++ (p ++ strPathParamSuf)) =
      List.take 16 strPathParamPre :=
    List.take_append_of_le_length (by decide)
  rw [hA, hB] at h16
  exact absurd h16 (by decide)

theorem countP_ppe_warning (p : List Char) (b : Bool) (m : List Char) :
    List.countP (isPathParamErr p) (if b then [⟨Sev.warning, m⟩] else []) = 0 := by
  cases b <;> simp [List.countP_cons, isPathParamErr]

theorem countP_ppe_dupIdDiags (p : List Char) :
    ∀ (es : List VEndpoint) (seen : List (List Char)),
      List.countP (isPathParamErr p) (dupIdDiags es seen) = 0 := by
  intro es
  induction es with
  | nil => intro seen; rfl
  | cons e rest ih =>
    intro seen
    rw [dupIdDiags, List.countP_append, ih]
    rcases hs : seen.contains e.id with _ | _
    · rfl
    · simp [List.countP_cons, isPathParamErr, dupIdMsg_ne_pathParamMsg]

theorem countP_ppe_tokenList (p : List Char) (defined : List (List Char)) :
    ∀ toks : List (List Char),
      List.countP (isPathParamErr p)
        ((toks.map fun q =>
          if defined.contains q then ([] : List Diag)
          else [⟨Sev.error, pathParamMsg q⟩]).flatten) =
      if defined.contains p then 0 else toks.count p := by
  intro toks
  induction toks with
  | nil =>
    rcases hd : defined.contains p with _ | _ <;> simp
  | cons q rest ih =>
    simp only [List.map_cons, List.flatten_cons, List.countP_append, ih,
      List.count_cons]
    by_cases hq : q = p
    · subst hq
      rcases hd : defined.contains q with _ | _
      · simp [List.countP_cons, isPathParamErr, Nat.add_comm]
      · simp
    · have hqb : (q == p) = false := beq_eq_false_iff_ne.mpr hq
      have hmsg : (pathParamMsg q == pathParamMsg p) = false :=
        beq_eq_false_iff_ne.mpr fun hc => hq (pathParamMsg_injective hc)
      rcases hd : defined.contains q with _ | _
      · simp [List.countP_cons, isPathParamErr, hmsg, hqb]
      · simp [hqb]

theorem braceTokenAt_none_of_no_brace {c : Char} {t : List Char}
    (hc : c ≠ '\x7b') : braceTokenAt (c :: t) = none := by
  simp only [braceTokenAt]
  split
  · rename_i heq
    exact absurd (List.cons.inj heq).1 hc
  · rfl

theorem pathTokens_nil_of_no_brace :
    ∀ (fuel : Nat) (cs : List Char), (∀ c ∈ cs, c ≠ '\x7b') →
      findMatchesInSourceF braceTokenAt fuel cs = [] := by
  intro fuel
  induction fuel with
  | zero => intro cs h; rfl
  | succ n ih =>
    intro cs h
    cases cs with
    | nil => rfl
    | cons c t =>
      rw [findMatchesInSourceF,
        braceTokenAt_none_of_no_brace (h c (List.mem_cons_self c t))]
      exact ih t fun c2 hc2 => h c2 (List.mem_cons_of_mem c hc2)

theorem countP_ppe_endpointConvDiags (p : List Char) (e : VEndpoint) :
    List.countP (isPathParamErr p) (endpointConvDiags e) =
      if (paramNames e).contains p then 0 else (pathTokens e.path).count p := by
  rw [endpointConvDiags]
  simp only [List.countP_append, countP_ppe_warning]
  by_cases hbrace : e.path.contains '\x7b' = true
  · rw [if_pos hbrace, countP_ppe_tokenList p (paramNames e) (pathTokens e.path)]
    simp
  · have hnb : ∀ c ∈ e.path, c ≠ '\x7b' := by
      intro c hc hceq
      subst hceq
      exact hbrace (List.elem_iff.mpr hc)
    have htoks : pathTokens e.path = [] :=
      pathTokens_nil_of_no_brace e.path.length e.path hnb
    rw [if_neg hbrace, htoks]
    simp

theorem sum_countP_ppe_conv (p : List Char) :
    ∀ es : List VEndpoint,
      (List.map (List.countP (isPathParamErr p)) (List.map endpointConvDiags es)).sum
        =
      (List.map (fun e =>
        if (paramNames e).contains p then 0 else (pathTokens e.path).count p) es).sum := by
  intro es
  induction es with
  | nil => rfl
  | cons e rest ih =>
    simp only [List.map_cons, List.sum_cons, ih, countP_ppe_endpointConvDiags]

/-- C7 counterexample: an endpoint whose path contains the undeclared token
id twice receives two path-parameter-not-defined errors for id, not the
exactly one the claim demands. -/
theorem checkAPI_c7_counterexample :
    pathParamErrCount strId (checkAPI apiDupToken) = 2 := by
  decide

/-- C7 as amended: for every parameter name, the number of
path-parameter-not-defined errors checkAPI emits for that name is, summed
over the endpoints, zero when the endpoint declares the parameter and
otherwise the number of occurrences of the brace token with that name in the
endpoint path; in particular exactly one when an undeclared token occurs
exactly once, and zero once the parameter is declared. -/
theorem checkAPI_pathParam_per_occurrence (api : VApi) (p : List Char) :
    pathParamErrCount p (checkAPI api) =
      (api.endpoints.map fun e =>
        if (paramNames e).contains p then 0 else (pathTokens e.path).count p).sum := by
  rw [pathParamErrCount, checkAPI]
  simp only [List.countP_append, countP_ppe_warning, countP_ppe_dupIdDiags,
    List.countP_flatten]
  rw [sum_countP_ppe_conv p api.endpoints]
  simp

theorem isDupRefWarn_dupRefMsg (n : List Char) :
    isDupRefWarn ⟨Sev.warning, dupRefMsg n⟩ = true := by
  simp [isDupRefWarn, dupRefMsg, dropLit_self_append]

theorem mem_dupRefDiags_isDup :
    ∀ (items : List VNavItem) (seen : List (List Char)) (d : Diag),
      d ∈ dupRefDiags items seen → isDupRefWarn d = true := by
  intro items
  induction items with
  | nil => intro seen d h; exact absurd h (by simp [dupRefDiags])
  | cons it rest ih =>
    intro seen d h
    rw [dupRefDiags] at h
    rcases hr : it.screenRef with _ | n
    · rw [hr] at h
      exact ih _ d h
    · rw [hr] at h
      rcases List.mem_append.mp h with h1 | h2
      · split at h1
        · rcases List.mem_singleton.mp h1 with rfl
          exact isDupRefWarn_dupRefMsg n
        · exact absurd h1 (by simp)
      · exact ih _ d h2

theorem countP_dupRefDiags (items : List VNavItem) (seen : List (List Char)) :
    List.countP isDupRefWarn (dupRefDiags items seen) =
      (dupRefDiags items seen).length :=
  List.countP_eq_length.mpr fun d hd => mem_dupRefDiags_isDup items seen d hd

theorem dupRefDiags_length :
    ∀ (items : List VNavItem) (seen : List (List Char)),
      (∀ n ∈ resolvedRefs items, n ≠ []) →
      (dupRefDiags items seen).length +
        (seen.toFinset ∪ (resolvedRefs items).toFinset).card =
      (resolvedRefs items).length + seen.toFinset.card := by
  intro items
  induction items with
  | nil =>
    intro seen h
    simp [dupRefDiags, resolvedRefs]
  | cons it rest ih =>
    intro seen h
    rcases hr : it.screenRef with _ | n
    · have hres : resolvedRefs (it :: rest) = resolvedRefs rest := by
        simp [resolvedRefs, List.filterMap_cons, hr]
      rw [hres] at h
      rw [dupRefDiags, hr, hres]
      exact ih seen h
    · have hres : resolvedRefs (it :: rest) = n :: resolvedRefs rest := by
        simp [resolvedRefs, List.filterMap_cons, hr]
      rw [hres] at h
      have hn : n ≠ [] := h n (List.mem_cons_self n (resolvedRefs rest))
      have hnE : n.isEmpty = false := by
        simpa [List.isEmpty_eq_false] using hn
      have htail : ∀ m ∈ resolvedRefs rest, m ≠ [] :=
        fun m hm => h m (List.mem_cons_of_mem n hm)
      have hrec := ih (n :: seen) htail
      rw [dupRefDiags, hr, hres]
      simp only [List.toFinset_cons, Finset.insert_union, Finset.union_insert,
        List.length_append, List.length_cons] at hrec ⊢
      by_cases hmem : n ∈ seen
      · have h1 : insert n seen.toFinset = seen.toFinset :=
          Finset.insert_eq_self.mpr (List.mem_toFinset.mpr hmem)
        have h2 : insert n (seen.toFinset ∪ (resolvedRefs rest).toFinset) =
            seen.toFinset ∪ (resolvedRefs rest).toFinset :=
          Finset.insert_eq_self.mpr
            (Finset.mem_union.mpr (Or.inl (List.mem_toFinset.mpr hmem)))
        rw [h1] at hrec
        rw [h2] at hrec ⊢
        rw [if_pos (by simp [hnE, hmem] :
          (!n.isEmpty && seen.contains n) = true)]
        simp only [List.length_singleton]
        omega
      · have hcont : seen.contains n = false := by
          rcases hc : seen.contains n with _ | _
          · rfl
          · exact absurd (List.elem_iff.mp hc) hmem
        have h3 : (insert n seen.toFinset).card = seen.toFinset.card + 1 :=
          Finset.card_insert_of_not_mem fun hx => hmem (List.mem_toFinset.mp hx)
        rw [h3] at hrec
        rw [if_neg (by simp [hmem] : ¬((!n.isEmpty && seen.contains n) = true))]
        simp only [List.length_nil, List.nil_append]
        omega

/-- C9: checkNavigation emits one referenced-multiple-times warning per
navigation item whose resolved screen name already occurred on an earlier
item: the number of such warnings is the number of resolved references minus
the number of distinct resolved names, and in particular zero when all items
reference distinct screens. The hypothesis records that resolved screen names
are nonempty (the truthiness guard of the code skips an empty name). -/
theorem checkNavigation_dup_warnings (nav : VNavigationNode)
    (h : ∀ n ∈ resolvedRefs nav.items, n ≠ []) :
    List.countP isDupRefWarn (checkNavigation nav) =
      (resolvedRefs nav.items).length - (resolvedRefs nav.items).toFinset.card ∧
    ((resolvedRefs nav.items).Nodup →
      List.countP isDupRefWarn (checkNavigation nav) = 0) := by
  have hmain : List.countP isDupRefWarn (checkNavigation nav) =
      (resolvedRefs nav.items).length - (resolvedRefs nav.items).toFinset.card := by
    rw [checkNavigation]
    simp only [List.countP_append]
    have h1 : List.countP isDupRefWarn
        (if nav.items.isEmpty then [⟨Sev.error, msgNavMustHaveItem⟩] else []) = 0 := by
      rcases hb : nav.items.isEmpty with _ | _ <;> simp [List.countP_cons, isDupRefWarn]
    have h2 : List.countP isDupRefWarn
        (if nav.navType == strTab && decide (nav.items.length > 5)
         then [⟨Sev.warning, msgTabTooMany⟩] else []) = 0 := by
      rcases hb : nav.navType == strTab && decide (nav.items.length > 5) with _ | _
      · simp
      · simp only [if_pos rfl]
        decide
    rw [h1, h2, countP_dupRefDiags]
    have hlen := dupRefDiags_length nav.items [] h
    simp only [List.toFinset_nil, Finset.empty_union, Finset.card_empty] at hlen
    have hcard : (resolvedRefs nav.items).toFinset.card ≤
        (resolvedRefs nav.items).length := (resolvedRefs nav.items).toFinset_card_le
    omega
  refine ⟨hmain, fun hnd => ?_⟩
  rw [hmain, List.toFinset_card_of_nodup hnd]
  omega

/-- Witness for the C9 theorem at a navigation whose items resolve to A, B
and A again: three resolved references, two distinct names, one warning. -/
theorem checkNavigation_dup_warnings_wit :
    (List.countP isDupRefWarn (checkNavigation navRepeated) =
      (resolvedRefs navRepeated.items).length -
        (resolvedRefs navRepeated.items).toFinset.card ∧
    ((resolvedRefs navRepeated.items).Nodup →
      List.countP isDupRefWarn (checkNavigation navRepeated) = 0)) ∧
    List.countP isDupRefWarn (checkNavigation navRepeated) = 1 :=
  ⟨checkNavigation_dup_warnings navRepeated (by decide), by decide⟩

/-- C10: when parseDirectApi returns an API object, every endpoint block of
the source contributes exactly one endpoint to it (blocks are mapped, never
skipped), with the method defaulting to GET when the block has no method
capture and the path defaulting to the empty string when the block has no
path capture. -/
theorem parseDirectApi_defaults (s : List Char) (api : DApi) (b : List Char)
    (hapi : parseDirectApi s = some api) (hb : b ∈ endpointBlocks s) :
    endpointOfBlock b ∈ api.endpoints ∧
    api.endpoints.length = (endpointBlocks s).length ∧
    (scanFirst methodCapAt b = none → (endpointOfBlock b).method = kwGET) ∧
    (scanFirst pathCapAt b = none → (endpointOfBlock b).path = []) := by
  have hep : api.endpoints = (endpointBlocks s).map endpointOfBlock := by
    rw [parseDirectApi] at hapi
    rcases hhead : scanFirst apiHeadAt s with _ | u
    · rw [hhead] at hapi
      exact absurd hapi (by simp)
    · rw [hhead] at hapi
      simp only [Option.some.injEq] at hapi
      rw [← hapi]
  refine ⟨?_, ?_, ?_, ?_⟩
  · rw [hep]
    exact List.mem_map_of_mem endpointOfBlock hb
  · rw [hep, List.length_map]
  · intro hm
    simp [endpointOfBlock, hm]
  · intro hp
    simp [endpointOfBlock, hp]

/-- Witness for the C10 theorem at an api section followed by an endpoint
block that has neither a path nor a method field. -/
theorem parseDirectApi_defaults_wit :
    endpointOfBlock apiWitBlock ∈ apiWitExpected.endpoints ∧
    apiWitExpected.endpoints.length = (endpointBlocks apiWitSrc).length ∧
    (endpointOfBlock apiWitBlock).method = kwGET ∧
    (endpointOfBlock apiWitBlock).path = [] := by
  have h := parseDirectApi_defaults apiWitSrc apiWitExpected apiWitBlock
    (by decide) (by decide)
  exact ⟨h.1, h.2.1, h.2.2.1 (by decide), h.2.2.2 (by decide)⟩

end FinApp
